import Mathlib

/-!
Shallow embedding of the client-side core of the zenfeed-web dashboard:
the item identity hash (`src/lib/utils/hashUtils.ts`, `feedUtils.ts`), the
read-state store (`src/lib/stores/readStateStore.ts`), the local-day counting
(`dateUtils.ts`), the grouping/filtering and desktop view-selection logic
(`Past24h.svelte`), the swipe-list construction (`feed-detail/+page.svelte`)
and the HTTP proxy route (`routes/api/[...path]/+server.ts`).

Modelling conventions, used throughout:
* JS strings are modelled by Lean `String`; character-by-character operations
  (hashing, ordering) work on code points, with UTF-16 surrogate pairs made
  explicit where the source reads `charCodeAt` (see `charUtf16`).
* JS objects / `Map`s are modelled as insertion-ordered association lists;
  property access is first-match lookup (`lookupKV`).
* JS number arithmetic in the hash is exact integer arithmetic over `Int`
  with the 32-bit coercions (`<<`, `>>> 0`) made explicit; this is exact for
  the actual float semantics as long as intermediate values stay below 2^53,
  which holds for inputs of fewer than about four million code units.
* `Array.prototype.sort(cmp)` is modelled by the stable `List.insertionSort`
  with the comparator's non-positive-result relation.
* `String.prototype.localeCompare` is modelled as the sign-normalised
  code-point three-way comparison; locale collation tables are not
  representable in the embedding.
-/

namespace Zenfeed

/-- UTF-16 code units of one character, as JS `charCodeAt` enumerates them:
a code point below 0x10000 is one unit, anything above is a surrogate pair. -/
def charUtf16 (c : Char) : List Nat :=
  if c.toNat < 65536 then [c.toNat]
  else [55296 + (c.toNat - 65536) / 1024, 56320 + (c.toNat - 65536) % 1024]

/-- All UTF-16 code units of a string, in order. -/
def utf16Units (s : String) : List Nat := (s.data.map charUtf16).flatten

/-- JS ToInt32 (the coercion applied to the operands and result of `<<`):
the value modulo 2^32, represented in [-2^31, 2^31). -/
def toInt32 (x : Int) : Int :=
  let r := x % 4294967296
  if r < 2147483648 then r else r - 4294967296

/-- JS ToUint32 (`x >>> 0`): the value modulo 2^32, in [0, 2^32). -/
def toUint32 (x : Int) : Nat := (x % 4294967296).toNat

/-- One iteration of the `simpleHash` loop of `hashUtils.ts`:
`hash = (hash << 5) + hash + char`. The shift coerces its operand to int32
and yields an int32; the two additions are exact JS float additions. -/
def simpleHashStep (hash : Int) (c : Nat) : Int := toInt32 (hash * 32) + hash + (c : Int)

/-- The `simpleHash` function of `hashUtils.ts`: DJB2 over the UTF-16 code
units starting from 5381, with the JS `<<`/`>>> 0` coercions made explicit. -/
def simpleHash (s : String) : Nat := toUint32 ((utf16Units s).foldl simpleHashStep 5381)

/-- Reference DJB2 accumulator over ℕ, as the specification describes it:
`acc = acc * 33 + charCode` starting from 5381, no truncation. -/
def djb2 (units : List Nat) : Nat := units.foldl (fun acc c => acc * 33 + c) 5381

/-- Code-point lexicographic "less or equal" on character lists. This is the
ordering behind the default (comparator-less) JS string sort used for label
keys; JS compares UTF-16 units while this compares code points, which agree
on all strings whose order is decided before an astral/BMP pair. -/
def charListLe : List Char → List Char → Bool
  | [], _ => true
  | _ :: _, [] => false
  | a :: as, b :: bs =>
    if a.toNat < b.toNat then true
    else if b.toNat < a.toNat then false
    else charListLe as bs

/-- Lexicographic "less or equal" on strings (see `charListLe`). -/
def strLe (a b : String) : Bool := charListLe a.data b.data

/-- Model of `String.prototype.localeCompare` as used by the sort comparators:
sign-normalised three-way comparison in the `strLe` order. -/
def localeCompare (a b : String) : Int :=
  if strLe a b then (if strLe b a then 0 else -1) else 1

/-- The `FeedVO` interface of `src/lib/types/feed.ts`: a label map (JS object,
modelled as an insertion-ordered association list), an ISO time string, and an
optional precomputed identifier. -/
structure FeedVO where
  labels : List (String × String)
  time : String
  id : Option String
deriving DecidableEq

/-- First-match association-list lookup: JS object property access `obj[k]`
(`none` plays the role of `undefined`). -/
def lookupKV {β : Type} (k : String) : List (String × β) → Option β
  | [] => none
  | p :: rest => if p.1 == k then some p.2 else lookupKV k rest

/-- JS `Object.keys(labels).sort()`: the label keys in the default sort order. -/
def sortStrings (l : List String) : List String :=
  List.insertionSort (fun a b => strLe a b = true) l

/-- The `combinedString` of `getFeedItemId`: all label keys sorted, rendered as
`key=value` pairs and joined with `&`. -/
def combinedString (labels : List (String × String)) : String :=
  String.intercalate "&"
    ((sortStrings (labels.map Prod.fst)).map fun k => k ++ "=" ++ (lookupKV k labels).getD "")

/-- The `getFeedItemId` function of `feedUtils.ts`: return the precomputed id
when it is truthy (a non-empty string), otherwise the decimal rendering of
`simpleHash` of the canonical label string. -/
def getFeedItemId (feed : FeedVO) : String :=
  match feed.id with
  | some s => if s == "" then Nat.repr (simpleHash (combinedString feed.labels)) else s
  | none => Nat.repr (simpleHash (combinedString feed.labels))

/-- Whether `feed.id` is truthy in JS (present and non-empty), i.e. whether
`getFeedItemId` takes the passthrough branch. -/
def idTruthy (feed : FeedVO) : Bool :=
  match feed.id with
  | some s => !(s == "")
  | none => false

/-- `ReadItemsMap = Map<string, number>` of `dateUtils.ts`: itemId to read
timestamp (epoch ms), as an insertion-ordered association list. -/
abbrev ReadItemsMap := List (String × Nat)

/-- JS `map.has(k)`. -/
def hasKey (k : String) (m : ReadItemsMap) : Bool := (lookupKV k m).isSome

/-- The update function inside `readItemsStore.markRead`: a no-op when the id
is present, otherwise a copy of the map with `(itemId, now)` appended (JS
`Map.set` appends new keys in insertion order). The Bool records whether the
audible cue fired, which happens exactly on the inserting branch. -/
def markRead (t : Nat) (itemId : String) (m : ReadItemsMap) : ReadItemsMap × Bool :=
  if hasKey itemId m then (m, false) else (m ++ [(itemId, t)], true)

/-- The read-state store of `readStateStore.ts`: the in-memory map plus the
content of the `zenfeed_read_feeds` durable-storage key (`none` = key absent). -/
structure ReadStore where
  mem : ReadItemsMap
  storage : Option ReadItemsMap
deriving DecidableEq

/-- `readItemsStore.markRead`: update the in-memory map via `markRead` and, on
the inserting branch, persist the whole new map (serialised as its entry list). -/
def storeMarkRead (t : Nat) (itemId : String) (s : ReadStore) : ReadStore × Bool :=
  if hasKey itemId s.mem then (s, false)
  else
    let m' := s.mem ++ [(itemId, t)]
    ({ mem := m', storage := some m' }, true)

/-- `readItemsStore.reset`: empty in-memory map, persisted key removed. -/
def storeReset (_s : ReadStore) : ReadStore := { mem := [], storage := none }

/-- Persisted form written by `markRead`: `Array.from(newMap.entries())`; the
JSON stringify/parse round trip is modelled as exact on this shape. -/
def serializeReadItems (m : ReadItemsMap) : List (String × Nat) := m

/-- JS `Map.set`: overwrite the value in place when the key is present
(keeping its position), otherwise append. -/
def mapSet (k : String) (v : Nat) (m : ReadItemsMap) : ReadItemsMap :=
  if hasKey k m then m.map (fun p => if p.1 == k then (p.1, v) else p) else m ++ [(k, v)]

/-- JS `new Map(pairs)`: fold `Map.set` over the pair list. -/
def mapFromPairs (l : List (String × Nat)) : ReadItemsMap :=
  l.foldl (fun acc p => mapSet p.1 p.2 acc) []

/-- Store initialisation of `createReadItemsStore`: an absent key yields the
empty map, a stored pair list (its shape already validated) yields
`new Map(parsedArray)`. -/
def loadReadItems (stored : Option (List (String × Nat))) : ReadItemsMap :=
  match stored with
  | none => []
  | some pairs => mapFromPairs pairs

/-- Milliseconds per day, the divisor of the ECMAScript `Day` operation. -/
def msPerDay : Int := 86400000

/-- Modelled from the spec: the runtime's local timezone, which is outside the
repository, is modelled as a fixed offset in milliseconds east of UTC. The
local day number of an epoch-ms instant is the floor of local time / 86400000
(ECMAScript `Day(LocalTime(t))`). -/
def localDayNumber (off t : Int) : Int := (t + off) / msPerDay

/-- Start-of-year day count within a 400-year era (`365*y + y/4 - y/100`),
a subterm of the civil-from-days date algorithm. -/
def yearStartDays (y : Int) : Int := 365 * y + y / 4 - y / 100

/-- Leap-adjusted day count (`doe - doe/1460 + doe/36524 - doe/146096`), the
subterm of civil-from-days whose quotient by 365 is the year of the era. -/
def adjDays (d : Int) : Int := d - d / 1460 + d / 36524 - d / 146096

/-- Modelled from the spec: the proleptic-Gregorian date decomposition behind
JS `Date.getFullYear/getMonth/getDate` (the Date internals are outside the
repository), via the standard civil-from-days algorithm. Returns
(year, month 1..12, day 1..31); `getMonth` is a fixed shift of the month and
is only ever compared for equality by the code under study. All `/` are
`Int.ediv`, which agrees with the source algorithm's truncating division on
its nonnegative operands. -/
def civilFromDays (z : Int) : Int × Int × Int :=
  let z' := z + 719468
  let era := z' / 146097
  let doe := z' - era * 146097
  let yoe := adjDays doe / 365
  let doy := doe - yearStartDays yoe
  let mp := (5 * doy + 2) / 153
  let d := doy - (153 * mp + 2) / 5 + 1
  let m := mp + (if mp < 10 then 3 else -9)
  (yoe + era * 400 + (if m ≤ 2 then 1 else 0), m, d)

/-- Inverse civil-date algorithm (days-from-civil), used only to prove that
`civilFromDays` is injective. -/
def daysFromCivil (y m d : Int) : Int :=
  let y' := y - (if m ≤ 2 then 1 else 0)
  let era := y' / 400
  let yoe := y' - era * 400
  let mp := if 2 < m then m - 3 else m + 9
  let doy := (153 * mp + 2) / 5 + d - 1
  era * 146097 + (yearStartDays yoe + doy) - 719468

/-- The `isToday` function of `dateUtils.ts`: the timestamp's local calendar
day, month and year all coincide with those of `now`. -/
def isToday (off nowMs : Int) (timestamp : Int) : Bool :=
  let a := civilFromDays (localDayNumber off timestamp)
  let b := civilFromDays (localDayNumber off nowMs)
  decide (a.2.2 = b.2.2 ∧ a.2.1 = b.2.1 ∧ a.1 = b.1)

/-- The `calculateTodayReadCount` function of `dateUtils.ts`: count the stored
timestamps satisfying `isToday`. -/
def calculateTodayReadCount (off nowMs : Int) (items : ReadItemsMap) : Nat :=
  (items.map fun p => p.2).countP fun t => isToday off nowMs (t : Int)

/-- Epoch-ms instant of the most recent local midnight at or before `nowMs`
(under the fixed-offset timezone model). -/
def localMidnight (off nowMs : Int) : Int := localDayNumber off nowMs * msPerDay - off

/-- The `compareFeeds` comparator of `feedUtils.ts`, parameterised by the
JS `new Date(string)` parser (outside the repository): `none` models an
invalid date. Most recent time first; ties and unparseable dates fall back to
ascending title comparison (`labels.title || ""`). A NaN-valued `Date`
compares neither greater nor less, so either side being invalid lands in the
title fallback, exactly like the source's comparison chain. -/
def compareFeeds (parseTime : String → Option Int) (a b : FeedVO) : Int :=
  match parseTime a.time, parseTime b.time with
  | some ta, some tb =>
    if tb < ta then -1
    else if ta < tb then 1
    else localeCompare ((lookupKV "title" a.labels).getD "") ((lookupKV "title" b.labels).getD "")
  | _, _ =>
    localeCompare ((lookupKV "title" a.labels).getD "") ((lookupKV "title" b.labels).getD "")

/-- The grouped feed map of `Past24h.svelte` (`GroupedFeeds`), a JS object
keyed by group name. -/
abbrev GroupedFeeds := List (String × List FeedVO)

/-- The `filterReadItems` function of `Past24h.svelte`: per group, keep the
feeds whose identity is not in the read map; drop a group whose filtered list
is empty. -/
def filterReadItems (groups : GroupedFeeds) (readItemsMap : ReadItemsMap) : GroupedFeeds :=
  groups.filterMap fun e =>
    if (e.2.filter fun f => !(hasKey (getFeedItemId f) readItemsMap)).isEmpty then none
    else some (e.1, e.2.filter fun f => !(hasKey (getFeedItemId f) readItemsMap))

/-- The `sortedGroupEntries` derivation of `Past24h.svelte`:
`Object.entries(filtered).sort((a, b) => a[0].localeCompare(b[0]))`. -/
def sortedGroupEntries (filtered : GroupedFeeds) : GroupedFeeds :=
  List.insertionSort (fun a b => localeCompare a.1 b.1 ≤ 0) filtered

/-- JS truthiness of a nullable string. -/
def optTruthy : Option String → Bool
  | none => false
  | some s => !(s == "")

/-- The desktop selection state of `Past24h.svelte` that the reactive
view-selection block reads and writes. -/
structure SelState where
  initialActiveGroupName : Option String
  activeGroupName : Option String
  selectedFeedDesktop : Option FeedVO
deriving DecidableEq

/-- The reactive view-selection block of `Past24h.svelte` (the `$:` block
updating the active tab and selected feed), as a state transformer run on the
current grouped feeds, read map and loading flag. -/
def reconcileSelection (groupedFeeds : GroupedFeeds) (readItemsMap : ReadItemsMap)
    (isLoading : Bool) (s : SelState) : SelState :=
  let filtered := filterReadItems groupedFeeds readItemsMap
  let sorted := sortedGroupEntries filtered
  if 0 < sorted.length ∧ isLoading = false then
    let currentGroupNames := sorted.map Prod.fst
    let restore := optTruthy s.initialActiveGroupName &&
      currentGroupNames.contains (s.initialActiveGroupName.getD "")
    let keep := optTruthy s.activeGroupName &&
      currentGroupNames.contains (s.activeGroupName.getD "")
    let newActive : Option String :=
      if restore then s.initialActiveGroupName
      else if keep then s.activeGroupName
      else currentGroupNames.head?
    let groupChanged : Bool :=
      if restore then newActive != s.activeGroupName
      else if keep then false
      else true
    let newInitial : Option String := if restore then none else s.initialActiveGroupName
    let currentGroupFeeds : List FeedVO :=
      if optTruthy newActive then (lookupKV (newActive.getD "") filtered).getD [] else []
    let newSelected : Option FeedVO :=
      if groupChanged then currentGroupFeeds.head?
      else if 0 < currentGroupFeeds.length then
        let stillOk := match s.selectedFeedDesktop with
          | some sel => currentGroupFeeds.any fun f =>
              getFeedItemId f == getFeedItemId sel && !(hasKey (getFeedItemId f) readItemsMap)
          | none => false
        if stillOk then s.selectedFeedDesktop
        else currentGroupFeeds.find? fun f => !(hasKey (getFeedItemId f) readItemsMap)
      else none
    { initialActiveGroupName := newInitial, activeGroupName := newActive,
      selectedFeedDesktop := newSelected }
  else if isLoading = false then
    if s.activeGroupName != none then
      { s with activeGroupName := none, selectedFeedDesktop := none }
    else s
  else s

/-- The `handleMarkReadAndSelectNextDesktop` handler of `Past24h.svelte`:
mark the item read, then (on desktop, for a valid active group) advance the
selection to the next unread item after the marked one, falling back to the
nearest previous unread item, else clear it. Returns the updated read map
and the updated `selectedFeedDesktop`. -/
def handleMarkReadAndSelectNextDesktop (groupedFeeds : GroupedFeeds)
    (readItemsMap : ReadItemsMap) (t : Nat) (isMobile : Bool)
    (activeGroupName : Option String) (selectedFeedDesktop : Option FeedVO)
    (itemId : String) : ReadItemsMap × Option FeedVO :=
  let readMap' := (markRead t itemId readItemsMap).1
  if !isMobile && optTruthy activeGroupName
      && (lookupKV (activeGroupName.getD "") groupedFeeds).isSome then
    let feeds := (lookupKV (activeGroupName.getD "") groupedFeeds).getD []
    match feeds.findIdx? (fun f => getFeedItemId f == itemId) with
    | some i =>
      let nxt : Option FeedVO :=
        match (feeds.drop (i + 1)).find? (fun f => !(hasKey (getFeedItemId f) readMap')) with
        | some f => some f
        | none => (feeds.take i).reverse.find? fun f => !(hasKey (getFeedItemId f) readMap')
      (readMap', nxt)
    | none =>
      match selectedFeedDesktop with
      | some sel => if getFeedItemId sel == itemId then (readMap', none) else (readMap', some sel)
      | none => (readMap', none)
  else (readMap', selectedFeedDesktop)

/-- The group value used when building the swipe list in
`feed-detail/+page.svelte`: `feed.labels[label] || uncategorized`. -/
def groupValueOf (feed : FeedVO) (label uncategorized : String) : String :=
  let v := (lookupKV label feed.labels).getD ""
  if v == "" then uncategorized else v

/-- The base list for swipe navigation: the cached feeds restricted to the
saved group context when one is present, otherwise all cached feeds. -/
def swipeBaseList (cachedFeeds : List FeedVO) (groupCtx : Option (String × String))
    (uncategorized : String) : List FeedVO :=
  match groupCtx with
  | some (lbl, name) => cachedFeeds.filter fun f => groupValueOf f lbl uncategorized == name
  | none => cachedFeeds

/-- The `onMount` swipe-list construction of `feed-detail/+page.svelte`:
group-filter the cached feeds, drop read items except the currently viewed
one, then sort with `compareFeeds`. -/
def buildSwipeList (parseTime : String → Option Int) (cachedFeeds : List FeedVO)
    (groupCtx : Option (String × String)) (uncategorized : String)
    (readItemsMap : ReadItemsMap) (currentFeedId : String) : List FeedVO :=
  List.insertionSort (fun a b => compareFeeds parseTime a b ≤ 0)
    ((swipeBaseList cachedFeeds groupCtx uncategorized).filter fun f =>
      !(hasKey (getFeedItemId f) readItemsMap) || getFeedItemId f == currentFeedId)

/-- Outcome of the forwarded `fetch` in the proxy route: a backend response
with some status, a connection-refused failure (`e.cause.code === 'ECONNREFUSED'`),
or any other failure. -/
inductive FetchOutcome
  | success (status : Nat)
  | connRefused
  | failure
deriving DecidableEq

/-- Whether `chars` starts with `pre` (JS `String.prototype.startsWith`). -/
def listStartsWith : List Char → List Char → Bool
  | _, [] => true
  | [], _ :: _ => false
  | a :: as, b :: bs => a == b && listStartsWith as bs

/-- The proxy handler of `routes/api/[...path]/+server.ts`, reduced to the
HTTP status it responds with. `validUrl` models `new URL(u)` succeeding (URL
parsing lives outside the repository); `backendUrl` is the query parameter
(`none` = absent; the source's `!backendUrl` guard also catches the empty
string). -/
def proxyHandler (disableQueryConfig disableApplyConfig : Bool)
    (validUrl : String → Bool) (backendUrl : Option String) (path : String)
    (outcome : FetchOutcome) : Nat :=
  match backendUrl with
  | none => 400
  | some u =>
    if u == "" then 400
    else if !(validUrl u) then 400
    else if disableQueryConfig && listStartsWith path.data "query_config".data then 404
    else if disableApplyConfig && listStartsWith path.data "apply_config".data then 404
    else
      match outcome with
      | .success st => st
      | .connRefused => 503
      | .failure => 500

theorem charToNat_inj {a b : Char} (h : a.toNat = b.toNat) : a = b := by
  rcases a with ⟨⟨av, ha⟩, hva⟩
  rcases b with ⟨⟨bv, hb⟩, hvb⟩
  simp [Char.toNat, UInt32.toNat] at h
  subst h
  rfl

theorem charListLe_total : ∀ a b : List Char, charListLe a b = true ∨ charListLe b a = true := by
  intro a
  induction a with
  | nil => intro b; left; rfl
  | cons x xs ih =>
    intro b
    cases b with
    | nil => right; rfl
    | cons y ys =>
      simp only [charListLe]
      rcases Nat.lt_trichotomy x.toNat y.toNat with h | h | h
      · left; simp [h]
      · have h1 : ¬ x.toNat < y.toNat := by omega
        have h2 : ¬ y.toNat < x.toNat := by omega
        simp only [if_neg h1, if_neg h2]
        exact ih ys
      · right; simp [h]

theorem charListLe_trans : ∀ a b c : List Char,
    charListLe a b = true → charListLe b c = true → charListLe a c = true := by
  intro a
  induction a with
  | nil => intro b c _ _; rfl
  | cons x xs ih =>
    intro b c h1 h2
    cases b with
    | nil => exact absurd h1 (by simp [charListLe])
    | cons y ys =>
      cases c with
      | nil => exact absurd h2 (by simp [charListLe])
      | cons z zs =>
        simp only [charListLe] at h1 h2 ⊢
        by_cases hxz : x.toNat < z.toNat
        · simp [hxz]
        · by_cases hxy : x.toNat < y.toNat
          · by_cases hyz : y.toNat < z.toNat
            · omega
            · by_cases hzy : z.toNat < y.toNat
              · simp [if_neg hyz, if_pos hzy] at h2
              · omega
          · by_cases hyx : y.toNat < x.toNat
            · simp [if_neg hxy, if_pos hyx] at h1
            · by_cases hyz : y.toNat < z.toNat
              · omega
              · by_cases hzy : z.toNat < y.toNat
                · simp [if_neg hyz, if_pos hzy] at h2
                · have hzx : ¬ z.toNat < x.toNat := by omega
                  simp only [if_neg hxz, if_neg hzx]
                  simp only [if_neg hxy, if_neg hyx] at h1
                  simp only [if_neg hyz, if_neg hzy] at h2
                  exact ih ys zs h1 h2

theorem charListLe_antisymm : ∀ a b : List Char,
    charListLe a b = true → charListLe b a = true → a = b := by
  intro a
  induction a with
  | nil =>
    intro b h1 h2
    cases b with
    | nil => rfl
    | cons y ys => exact absurd h2 (by simp [charListLe])
  | cons x xs ih =>
    intro b h1 h2
    cases b with
    | nil => exact absurd h1 (by simp [charListLe])
    | cons y ys =>
      simp only [charListLe] at h1 h2
      by_cases hxy : x.toNat < y.toNat
      · by_cases hyx : y.toNat < x.toNat
        · omega
        · simp [if_neg hyx, if_pos hxy] at h2
      · by_cases hyx : y.toNat < x.toNat
        · simp [if_neg hxy, if_pos hyx] at h1
        · have hxy' : x = y := charToNat_inj (by omega)
          subst hxy'
          simp only [if_neg hxy] at h1 h2
          rw [ih ys h1 h2]

theorem strLe_total (a b : String) : strLe a b = true ∨ strLe b a = true :=
  charListLe_total a.data b.data

theorem strLe_trans {a b c : String} (h1 : strLe a b = true) (h2 : strLe b c = true) :
    strLe a c = true :=
  charListLe_trans a.data b.data c.data h1 h2

theorem strLe_antisymm {a b : String} (h1 : strLe a b = true) (h2 : strLe b a = true) :
    a = b := by
  have h := charListLe_antisymm a.data b.data h1 h2
  cases a with
  | mk d1 =>
    cases b with
    | mk d2 => exact congrArg String.mk h

theorem strLe_refl (a : String) : strLe a a = true := by
  rcases strLe_total a a with h | h <;> exact h

theorem localeCompare_le_zero_iff (a b : String) : localeCompare a b ≤ 0 ↔ strLe a b = true := by
  unfold localeCompare
  cases h : strLe a b
  · simp [h]
  · cases h2 : strLe b a <;> simp [h, h2]

theorem localeCompare_antisym (a b : String) : localeCompare a b = -(localeCompare b a) := by
  unfold localeCompare
  cases h1 : strLe a b <;> cases h2 : strLe b a <;> simp [h1, h2]
  · rcases strLe_total a b with h | h
    · exact absurd h (by simp [h1])
    · exact absurd h (by simp [h2])

theorem lookupKV_append_of_some {β : Type} {k : String} {l : List (String × β)} {v : β}
    (l₂ : List (String × β)) (h : lookupKV k l = some v) :
    lookupKV k (l ++ l₂) = some v := by
  induction l with
  | nil => simp [lookupKV] at h
  | cons p rest ih =>
    simp only [lookupKV, List.cons_append] at h ⊢
    split at h
    · rw [if_pos (by assumption)]
      exact h
    · rw [if_neg (by assumption)]
      exact ih h

theorem lookupKV_perm {β : Type} (k : String) {l l' : List (String × β)} (h : l.Perm l') :
    (l.map Prod.fst).Nodup → lookupKV k l = lookupKV k l' := by
  induction h with
  | nil => intro _; rfl
  | cons x h ih =>
    intro hnd
    simp only [lookupKV]
    split
    · rfl
    · exact ih hnd.of_cons
  | swap x y t =>
    intro hnd
    have hxy : y.1 ≠ x.1 := by
      simp only [List.map_cons, List.nodup_cons, List.mem_cons] at hnd
      exact fun hcontra => hnd.1 (Or.inl hcontra)
    simp only [lookupKV]
    by_cases h1 : y.1 = k
    · have h2 : ¬ (x.1 = k) := fun hc => hxy (h1.trans hc.symm)
      simp [h1, h2]
    · by_cases h2 : x.1 = k <;> simp [h1, h2]
  | trans h1 h2 ih1 ih2 =>
    intro hnd
    exact (ih1 hnd).trans (ih2 ((h1.map Prod.fst).nodup hnd))

theorem toInt32_modeq (x : Int) : toInt32 x ≡ x [ZMOD 4294967296] := by
  unfold toInt32
  show (if x % 4294967296 < 2147483648 then x % 4294967296 else x % 4294967296 - 4294967296)
      % 4294967296 = x % 4294967296
  split <;> omega

theorem simpleHashStep_modeq {h : Int} {n : Nat} (c : Nat)
    (hc : h ≡ (n : Int) [ZMOD 4294967296]) :
    simpleHashStep h c ≡ ((n * 33 + c : Nat) : Int) [ZMOD 4294967296] := by
  have e1 : toInt32 (h * 32) ≡ (n : Int) * 32 [ZMOD 4294967296] :=
    (toInt32_modeq (h * 32)).trans (hc.mul_right 32)
  have e2 : simpleHashStep h c ≡ (n : Int) * 32 + (n : Int) + (c : Int) [ZMOD 4294967296] :=
    (e1.add hc).add (Int.ModEq.refl (c : Int))
  have e3 : ((n : Int)) * 32 + (n : Int) + (c : Int) = ((n * 33 + c : Nat) : Int) := by
    push_cast
    ring
  exact e2.trans (e3 ▸ Int.ModEq.refl _)

theorem foldl_simpleHashStep_modeq (units : List Nat) :
    ∀ (h : Int) (n : Nat), h ≡ (n : Int) [ZMOD 4294967296] →
      units.foldl simpleHashStep h ≡
        ((units.foldl (fun acc c => acc * 33 + c) n : Nat) : Int) [ZMOD 4294967296] := by
  induction units with
  | nil => intro h n hc; simpa using hc
  | cons c cs ih =>
    intro h n hc
    exact ih (simpleHashStep h c) (n * 33 + c) (simpleHashStep_modeq c hc)

/-- The JS hash computation with its 32-bit coercions equals the pure DJB2
value reduced modulo 2^32. -/
theorem simpleHash_eq_djb2 (s : String) :
    simpleHash s = djb2 (utf16Units s) % 4294967296 := by
  unfold simpleHash djb2 toUint32
  have h := foldl_simpleHashStep_modeq (utf16Units s) 5381 5381 (by rfl)
  unfold Int.ModEq at h
  rw [h]
  omega

theorem sortStrings_eq_of_perm {l l' : List String} (h : l.Perm l') :
    sortStrings l = sortStrings l' := by
  haveI ht : IsTotal String (fun a b => strLe a b = true) := ⟨strLe_total⟩
  haveI htr : IsTrans String (fun a b => strLe a b = true) :=
    ⟨fun _ _ _ h1 h2 => strLe_trans h1 h2⟩
  haveI has : IsAntisymm String (fun a b => strLe a b = true) :=
    ⟨fun _ _ h1 h2 => strLe_antisymm h1 h2⟩
  apply List.eq_of_perm_of_sorted (r := fun a b => strLe a b = true)
  · exact ((List.perm_insertionSort _ l).trans h).trans (List.perm_insertionSort _ l').symm
  · exact List.sorted_insertionSort _ l
  · exact List.sorted_insertionSort _ l'

theorem getFeedItemId_of_not_truthy {f : FeedVO} (hf : idTruthy f = false) :
    getFeedItemId f = Nat.repr (simpleHash (combinedString f.labels)) := by
  unfold getFeedItemId
  unfold idTruthy at hf
  cases hid : f.id with
  | none => rfl
  | some s =>
    rw [hid] at hf
    simp only [Bool.not_eq_false'] at hf
    simp [hf]

/-- C1: an item without a truthy precomputed id gets the unsigned decimal
string of the DJB2 hash (mod 2^32) of its sorted `key=value` label string, and
two such items whose label maps agree as maps (association lists that are
permutations of one another, keys unique) get the same identifier. -/
theorem getFeedItemId_djb2_and_order_invariance (a b : FeedVO)
    (ha : idTruthy a = false) (hb : idTruthy b = false)
    (hnd : (a.labels.map Prod.fst).Nodup) (hperm : a.labels.Perm b.labels) :
    getFeedItemId a = Nat.repr (djb2 (utf16Units (combinedString a.labels)) % 4294967296)
    ∧ getFeedItemId a = getFeedItemId b := by
  constructor
  · rw [getFeedItemId_of_not_truthy ha, simpleHash_eq_djb2]
  · rw [getFeedItemId_of_not_truthy ha, getFeedItemId_of_not_truthy hb]
    have hlook : ∀ k, lookupKV k a.labels = lookupKV k b.labels :=
      fun k => lookupKV_perm k hperm hnd
    have hkeys : sortStrings (a.labels.map Prod.fst) = sortStrings (b.labels.map Prod.fst) :=
      sortStrings_eq_of_perm (hperm.map Prod.fst)
    unfold combinedString
    rw [hkeys]
    have hmap : ∀ l : List String,
        (l.map fun k => k ++ "=" ++ (lookupKV k a.labels).getD "")
          = l.map fun k => k ++ "=" ++ (lookupKV k b.labels).getD "" := by
      intro l
      apply List.map_congr_left
      intro k _
      rw [hlook k]
    rw [hmap]

/-- Witness for C1 at a concrete pair of items whose labels are listed in
different orders. -/
theorem getFeedItemId_djb2_and_order_invariance_witness :
    getFeedItemId ⟨[("source", "x"), ("title", "A")], "2024-01-01T00:00:00Z", none⟩
      = Nat.repr (djb2 (utf16Units
          (combinedString [("source", "x"), ("title", "A")])) % 4294967296)
    ∧ getFeedItemId ⟨[("source", "x"), ("title", "A")], "2024-01-01T00:00:00Z", none⟩
      = getFeedItemId ⟨[("title", "A"), ("source", "x")], "2024-01-01T00:00:00Z", none⟩ :=
  getFeedItemId_djb2_and_order_invariance
    ⟨[("source", "x"), ("title", "A")], "2024-01-01T00:00:00Z", none⟩
    ⟨[("title", "A"), ("source", "x")], "2024-01-01T00:00:00Z", none⟩
    (by decide) (by decide) (by decide) (by decide)

theorem lookupKV_eq_none {β : Type} (k : String) (l : List (String × β)) :
    lookupKV k l = none ↔ k ∉ l.map Prod.fst := by
  induction l with
  | nil => simp [lookupKV]
  | cons p rest ih =>
    simp only [lookupKV, List.map_cons, List.mem_cons]
    by_cases h : p.1 = k
    · simp [h]
    · rw [if_neg (by simp [h]), ih]
      simp only [not_or]
      constructor
      · intro hn
        exact ⟨fun hc => h hc.symm, hn⟩
      · intro hn
        exact hn.2

theorem lookupKV_append_of_none {β : Type} (k : String) (l₁ l₂ : List (String × β))
    (h : lookupKV k l₁ = none) : lookupKV k (l₁ ++ l₂) = lookupKV k l₂ := by
  induction l₁ with
  | nil => rfl
  | cons p rest ih =>
    simp only [lookupKV, List.cons_append] at h ⊢
    split at h
    · exact absurd h (by simp)
    · rw [if_neg (by assumption)]
      exact ih h

theorem hasKey_eq_false_iff {k : String} {m : ReadItemsMap} :
    hasKey k m = false ↔ lookupKV k m = none := by
  unfold hasKey
  cases h : lookupKV k m <;> simp

theorem markRead_eq_insert {m : ReadItemsMap} {itemId : String} {t : Nat}
    (h : hasKey itemId m = false) : markRead t itemId m = (m ++ [(itemId, t)], true) := by
  simp [markRead, h]

theorem markRead_eq_noop {m : ReadItemsMap} {itemId : String} {t : Nat}
    (h : hasKey itemId m = true) : markRead t itemId m = (m, false) := by
  simp [markRead, h]

theorem hasKey_markRead_self (m : ReadItemsMap) (itemId : String) (t : Nat) :
    hasKey itemId (markRead t itemId m).1 = true := by
  cases h : hasKey itemId m
  · rw [markRead_eq_insert h]
    unfold hasKey
    rw [lookupKV_append_of_none _ _ _ (hasKey_eq_false_iff.mp h)]
    simp [lookupKV]
  · rw [markRead_eq_noop h]
    exact h

/-- C2: `markRead` is idempotent — a second call with the same id leaves the
map unchanged, a call on an already-present id is a no-op, and the audible cue
(the Bool component) fires exactly when the id is newly inserted. -/
theorem markRead_idempotent (m : ReadItemsMap) (itemId : String) (t₁ t₂ : Nat) :
    (markRead t₂ itemId (markRead t₁ itemId m).1).1 = (markRead t₁ itemId m).1
    ∧ (hasKey itemId m = true → (markRead t₁ itemId m).1 = m)
    ∧ ((markRead t₁ itemId m).2 = true ↔ hasKey itemId m = false) := by
  refine ⟨?_, ?_, ?_⟩
  · have h2 := hasKey_markRead_self m itemId t₁
    rw [markRead_eq_noop h2]
  · intro h
    rw [markRead_eq_noop h]
  · cases hm : hasKey itemId m
    · rw [markRead_eq_insert hm]
      simp
    · rw [markRead_eq_noop hm]
      simp [hm]

/-- Witness for C2: marking an already-read id is a no-op. -/
theorem markRead_idempotent_witness :
    (markRead 3 "a" [("a", 7)]).1 = [("a", 7)] :=
  (markRead_idempotent [("a", 7)] "a" 3 3).2.1 (by decide)

/-- C9: `markRead` is a frame for existing records — every (id, timestamp)
pair present before the call is still present, unchanged, afterwards — and
`reset` empties both the in-memory map and the persisted key. -/
theorem storeMarkRead_frame_and_reset (s : ReadStore) (t : Nat) (itemId k : String) (v : Nat)
    (h : lookupKV k s.mem = some v) :
    lookupKV k (storeMarkRead t itemId s).1.mem = some v
    ∧ (storeReset s).mem = [] ∧ (storeReset s).storage = none := by
  refine ⟨?_, rfl, rfl⟩
  unfold storeMarkRead
  cases hh : hasKey itemId s.mem
  · simp only [hh, Bool.false_eq_true, if_false]
    exact lookupKV_append_of_some _ h
  · simp only [hh, if_true]
    exact h

/-- Witness for C9 at a concrete store. -/
theorem storeMarkRead_frame_and_reset_witness :
    lookupKV "b" (storeMarkRead 9 "a" ⟨[("b", 2)], some [("b", 2)]⟩).1.mem = some 2
    ∧ (storeReset ⟨[("b", 2)], some [("b", 2)]⟩).mem = []
    ∧ (storeReset ⟨[("b", 2)], some [("b", 2)]⟩).storage = none :=
  storeMarkRead_frame_and_reset ⟨[("b", 2)], some [("b", 2)]⟩ 9 "a" "b" 2 (by decide)

theorem foldl_mapSet_eq_append (l : List (String × Nat)) :
    ∀ acc : ReadItemsMap, ((acc ++ l).map Prod.fst).Nodup →
      l.foldl (fun a p => mapSet p.1 p.2 a) acc = acc ++ l := by
  induction l with
  | nil => intro acc _; simp
  | cons p rest ih =>
    intro acc hnd
    have hnd' : (acc.map Prod.fst ++ p.1 :: rest.map Prod.fst).Nodup := by
      simpa using hnd
    have hmem : (p.1 : String) ∉ acc.map Prod.fst := fun hc =>
      (List.nodup_append.mp hnd').2.2 hc (by simp)
    have hk : hasKey p.1 acc = false := by
      unfold hasKey
      rw [(lookupKV_eq_none p.1 acc).mpr hmem]
      rfl
    simp only [List.foldl_cons]
    have hset : mapSet p.1 p.2 acc = acc ++ [p] := by
      unfold mapSet
      simp [hk]
    rw [hset]
    have := ih (acc ++ [p]) (by simpa using hnd)
    rw [this]
    simp

/-- C6: serialising a ReadState (the entry-pair array written by `markRead`)
and reloading it through store initialisation reproduces the same mapping
(here proved as literal equality of the association lists, which is stronger
than equality up to reordering). -/
theorem readState_roundtrip (m : ReadItemsMap) (hnd : (m.map Prod.fst).Nodup) :
    loadReadItems (some (serializeReadItems m)) = m := by
  unfold loadReadItems serializeReadItems mapFromPairs
  simpa using foldl_mapSet_eq_append m [] hnd

/-- Witness for C6 at a concrete two-record state. -/
theorem readState_roundtrip_witness :
    loadReadItems (some (serializeReadItems [("a", 1), ("b", 2)])) = [("a", 1), ("b", 2)] :=
  readState_roundtrip [("a", 1), ("b", 2)] (by decide)

/-- C7: for items whose time fields both parse to valid timestamps, the
ordering comparator is antisymmetric: order(A,B) = -order(B,A). -/
theorem compareFeeds_antisym (parseTime : String → Option Int) (a b : FeedVO)
    (ta tb : Int) (ha : parseTime a.time = some ta) (hb : parseTime b.time = some tb) :
    compareFeeds parseTime a b = -(compareFeeds parseTime b a) := by
  unfold compareFeeds
  simp only [ha, hb]
  rcases lt_trichotomy ta tb with h | h | h
  · rw [if_neg (by omega), if_pos h, if_pos h]
    norm_num
  · subst h
    rw [if_neg (by omega), if_neg (by omega), if_neg (by omega), if_neg (by omega)]
    exact localeCompare_antisym _ _
  · rw [if_pos h, if_neg (by omega), if_pos h]

/-- Witness for C7 at two concrete items with distinct valid timestamps. -/
theorem compareFeeds_antisym_witness :
    compareFeeds (fun s => if s = "t1" then some 1 else if s = "t2" then some 2 else none)
        ⟨[("title", "A")], "t1", none⟩ ⟨[("title", "B")], "t2", none⟩
      = -(compareFeeds (fun s => if s = "t1" then some 1 else if s = "t2" then some 2 else none)
        ⟨[("title", "B")], "t2", none⟩ ⟨[("title", "A")], "t1", none⟩) :=
  compareFeeds_antisym _ _ _ 1 2 (by decide) (by decide)

/-- C8: the proxy route answers 400 when `backendUrl` is absent, empty or
unparseable; 404 when the addressed sub-path (`query_config`/`apply_config`)
is disabled by its environment flag; 503 when the backend connection is
refused; and 500 on any other forwarding failure. -/
theorem proxyHandler_statuses (dq da : Bool) (validUrl : String → Bool)
    (u path : String) (outcome : FetchOutcome) :
    (proxyHandler dq da validUrl none path outcome = 400)
    ∧ (u = "" ∨ validUrl u = false → proxyHandler dq da validUrl (some u) path outcome = 400)
    ∧ (u ≠ "" → validUrl u = true →
        (dq && listStartsWith path.data ("query_config").data
          || da && listStartsWith path.data ("apply_config").data) = true →
        proxyHandler dq da validUrl (some u) path outcome = 404)
    ∧ (u ≠ "" → validUrl u = true →
        (dq && listStartsWith path.data ("query_config").data) = false →
        (da && listStartsWith path.data ("apply_config").data) = false →
        (outcome = FetchOutcome.connRefused →
            proxyHandler dq da validUrl (some u) path outcome = 503)
          ∧ (outcome = FetchOutcome.failure →
            proxyHandler dq da validUrl (some u) path outcome = 500)) := by
  refine ⟨rfl, ?_, ?_, ?_⟩
  · rintro (h | h)
    · subst h
      rfl
    · unfold proxyHandler
      by_cases he : u = ""
      · simp [he]
      · simp [he, h]
  · intro hne hv hdis
    have hne' : ¬ (u == "") = true := by simp [hne]
    have hv' : ¬ (!validUrl u) = true := by simp [hv]
    simp only [proxyHandler]
    rw [if_neg hne', if_neg hv']
    by_cases hq : (dq && listStartsWith path.data ("query_config").data) = true
    · rw [if_pos hq]
    · rw [if_neg hq]
      have h2 : (da && listStartsWith path.data ("apply_config").data) = true := by
        rcases Bool.or_eq_true_iff.mp hdis with h | h
        · exact absurd h hq
        · exact h
      rw [if_pos h2]
  · intro hne hv hq ha
    have hne' : ¬ (u == "") = true := by simp [hne]
    have hv' : ¬ (!validUrl u) = true := by simp [hv]
    have hq' : ¬ (dq && listStartsWith path.data ("query_config").data) = true := by
      simp [hq]
    have ha' : ¬ (da && listStartsWith path.data ("apply_config").data) = true := by
      simp [ha]
    constructor <;> intro ho <;> subst ho <;>
      simp only [proxyHandler] <;> rw [if_neg hne', if_neg hv', if_neg hq', if_neg ha']

/-- Witness for C8: each error status at a concrete request. -/
theorem proxyHandler_statuses_witness :
    proxyHandler true false (fun _ => true) none "query" FetchOutcome.failure = 400
    ∧ proxyHandler true false (fun u => !(u == "bad")) (some "bad") "query"
        FetchOutcome.failure = 400
    ∧ proxyHandler true false (fun _ => true) (some "http") "query_config"
        FetchOutcome.failure = 404
    ∧ proxyHandler false false (fun _ => true) (some "http") "query"
        FetchOutcome.connRefused = 503
    ∧ proxyHandler false false (fun _ => true) (some "http") "query"
        FetchOutcome.failure = 500 := by
  refine ⟨(proxyHandler_statuses true false (fun _ => true) "u" "query"
      FetchOutcome.failure).1, ?_, ?_, ?_, ?_⟩
  · exact (proxyHandler_statuses true false (fun u => !(u == "bad")) "bad" "query"
      FetchOutcome.failure).2.1 (Or.inr (by decide))
  · exact (proxyHandler_statuses true false (fun _ => true) "http" "query_config"
      FetchOutcome.failure).2.2.1 (by decide) (by decide) (by decide)
  · exact ((proxyHandler_statuses false false (fun _ => true) "http" "query"
      FetchOutcome.connRefused).2.2.2 (by decide) (by decide) (by decide) (by decide)).1 rfl
  · exact ((proxyHandler_statuses false false (fun _ => true) "http" "query"
      FetchOutcome.failure).2.2.2 (by decide) (by decide) (by decide) (by decide)).2 rfl

theorem groupLe_total : ∀ a b : String × List FeedVO,
    localeCompare a.1 b.1 ≤ 0 ∨ localeCompare b.1 a.1 ≤ 0 := by
  intro a b
  rw [localeCompare_le_zero_iff, localeCompare_le_zero_iff]
  exact strLe_total a.1 b.1

theorem groupLe_trans : ∀ a b c : String × List FeedVO,
    localeCompare a.1 b.1 ≤ 0 → localeCompare b.1 c.1 ≤ 0 → localeCompare a.1 c.1 ≤ 0 := by
  intro a b c h1 h2
  rw [localeCompare_le_zero_iff] at h1 h2 ⊢
  exact strLe_trans h1 h2

theorem filterReadItems_keys_sublist (groups : GroupedFeeds) (readMap : ReadItemsMap) :
    ((filterReadItems groups readMap).map Prod.fst).Sublist (groups.map Prod.fst) := by
  induction groups with
  | nil => simp [filterReadItems]
  | cons e rest ih =>
    unfold filterReadItems
    unfold filterReadItems at ih
    rw [List.filterMap_cons]
    by_cases hc : (e.2.filter fun f => !(hasKey (getFeedItemId f) readMap)).isEmpty = true
    · rw [if_pos hc]
      exact ih.cons _
    · rw [if_neg hc]
      simp only [List.map_cons]
      exact ih.cons₂ _

theorem sortedGroupEntries_perm (l : GroupedFeeds) : (sortedGroupEntries l).Perm l :=
  List.perm_insertionSort _ l

theorem sortedGroupEntries_sorted (l : GroupedFeeds) :
    List.Pairwise (fun e₁ e₂ : String × List FeedVO => localeCompare e₁.1 e₂.1 ≤ 0)
      (sortedGroupEntries l) := by
  haveI : IsTotal (String × List FeedVO) (fun a b => localeCompare a.1 b.1 ≤ 0) :=
    ⟨groupLe_total⟩
  haveI : IsTrans (String × List FeedVO) (fun a b => localeCompare a.1 b.1 ≤ 0) :=
    ⟨groupLe_trans⟩
  exact List.sorted_insertionSort _ l

theorem sortedGroupEntries_eq_of_perm {l l' : GroupedFeeds} (h : l.Perm l')
    (hnd : (l.map Prod.fst).Nodup) : sortedGroupEntries l = sortedGroupEntries l' := by
  have hperm : (sortedGroupEntries l).Perm (sortedGroupEntries l') :=
    ((sortedGroupEntries_perm l).trans h).trans (sortedGroupEntries_perm l').symm
  have hnds : ((sortedGroupEntries l).map Prod.fst).Nodup :=
    (((sortedGroupEntries_perm l).map Prod.fst).nodup_iff).mpr hnd
  have hnds' : ((sortedGroupEntries l').map Prod.fst).Nodup :=
    ((hperm.map Prod.fst).nodup_iff).mp hnds
  haveI : IsAntisymm (String × List FeedVO)
      (fun a b => localeCompare a.1 b.1 ≤ 0 ∧ a.1 ≠ b.1) := by
    refine ⟨fun a b h1 h2 => absurd ?_ h1.2⟩
    rw [localeCompare_le_zero_iff] at h1 h2
    exact strLe_antisymm h1.1 h2.1
  apply List.eq_of_perm_of_sorted
      (r := fun a b : String × List FeedVO => localeCompare a.1 b.1 ≤ 0 ∧ a.1 ≠ b.1) hperm
  · exact (sortedGroupEntries_sorted l).and (List.pairwise_map.mp hnds)
  · exact (sortedGroupEntries_sorted l').and (List.pairwise_map.mp hnds')

/-- C5: filtering removes from each group exactly the items whose identity is
in the read state, a group is omitted exactly when it has no unread item left,
and the presented (sorted) group sequence is ordered by group key and does not
depend on the insertion order of the grouping. -/
theorem filterRead_spec (groups groups' : GroupedFeeds) (readMap : ReadItemsMap)
    (hnd : (groups.map Prod.fst).Nodup) (hperm : groups.Perm groups') :
    (∀ k l, (k, l) ∈ filterReadItems groups readMap ↔
        ∃ l₀, (k, l₀) ∈ groups ∧
          l = l₀.filter (fun f => !(hasKey (getFeedItemId f) readMap)) ∧ l ≠ [])
    ∧ (sortedGroupEntries (filterReadItems groups readMap)).Perm
        (filterReadItems groups readMap)
    ∧ List.Pairwise (fun e₁ e₂ : String × List FeedVO => localeCompare e₁.1 e₂.1 ≤ 0)
        (sortedGroupEntries (filterReadItems groups readMap))
    ∧ sortedGroupEntries (filterReadItems groups readMap)
        = sortedGroupEntries (filterReadItems groups' readMap) := by
  refine ⟨?_, sortedGroupEntries_perm _, sortedGroupEntries_sorted _, ?_⟩
  · intro k l
    unfold filterReadItems
    rw [List.mem_filterMap]
    constructor
    · rintro ⟨e, hmem, heq⟩
      split at heq
      · exact absurd heq (by simp)
      · rename_i hne
        rw [Option.some_inj] at heq
        have h1 : e.1 = k := congrArg Prod.fst heq
        have h2 : e.2.filter (fun f => !(hasKey (getFeedItemId f) readMap)) = l :=
          congrArg Prod.snd heq
        subst h1
        refine ⟨e.2, by simpa using hmem, h2.symm, ?_⟩
        rw [h2] at hne
        simpa [List.isEmpty_iff] using hne
    · rintro ⟨l₀, hmem, hl, hne⟩
      refine ⟨(k, l₀), hmem, ?_⟩
      have hie : (l₀.filter (fun f => !(hasKey (getFeedItemId f) readMap))).isEmpty = false := by
        rw [← hl]
        simpa [List.isEmpty_iff] using hne
      rw [if_neg (by simp [hie]), Option.some_inj, ← hl]
  · exact sortedGroupEntries_eq_of_perm (hperm.filterMap _)
      ((filterReadItems_keys_sublist groups readMap).nodup hnd)

/-- Witness for C5: two insertion orders of the same grouping produce the same
sorted presentation. -/
theorem filterRead_spec_witness :
    sortedGroupEntries (filterReadItems
        [("b", [⟨[("title", "B")], "t", some "2"⟩]), ("a", [⟨[("title", "A")], "t", some "1"⟩])] [])
      = sortedGroupEntries (filterReadItems
        [("a", [⟨[("title", "A")], "t", some "1"⟩]), ("b", [⟨[("title", "B")], "t", some "2"⟩])] []) :=
  (filterRead_spec
    [("b", [⟨[("title", "B")], "t", some "2"⟩]), ("a", [⟨[("title", "A")], "t", some "1"⟩])]
    [("a", [⟨[("title", "A")], "t", some "1"⟩]), ("b", [⟨[("title", "B")], "t", some "2"⟩])]
    [] (by decide) (by decide)).2.2.2

/-- C10: the swipe list excludes exactly those items whose identity is read,
except the currently viewed item which is always retained; consequently when
the current item occurs in the group-filtered cached list, it has a
well-defined index in the swipe list. -/
theorem swipeList_spec (parseTime : String → Option Int) (cached : List FeedVO)
    (ctx : Option (String × String)) (unc : String) (readMap : ReadItemsMap)
    (currentId : String) :
    (∀ f, f ∈ buildSwipeList parseTime cached ctx unc readMap currentId ↔
        (f ∈ swipeBaseList cached ctx unc ∧
          (hasKey (getFeedItemId f) readMap = false ∨ getFeedItemId f = currentId)))
    ∧ ((∃ f ∈ swipeBaseList cached ctx unc, getFeedItemId f = currentId) →
        ((buildSwipeList parseTime cached ctx unc readMap currentId).findIdx?
            (fun f => getFeedItemId f == currentId)).isSome = true) := by
  have hmem : ∀ f, f ∈ buildSwipeList parseTime cached ctx unc readMap currentId ↔
      (f ∈ swipeBaseList cached ctx unc ∧
        (hasKey (getFeedItemId f) readMap = false ∨ getFeedItemId f = currentId)) := by
    intro f
    unfold buildSwipeList
    rw [(List.perm_insertionSort _ _).mem_iff, List.mem_filter]
    simp [Bool.not_eq_true']
  refine ⟨hmem, ?_⟩
  rintro ⟨f, hf, hid⟩
  rw [List.findIdx?_isSome, List.any_eq_true]
  exact ⟨f, (hmem f).mpr ⟨hf, Or.inr hid⟩, by simp [hid]⟩

/-- Witness for C10: an already-read current item still receives an index. -/
theorem swipeList_spec_witness :
    ((buildSwipeList (fun _ => none) [⟨[("title", "A")], "t", some "7"⟩] none "u" [("7", 0)]
        "7").findIdx? (fun f => getFeedItemId f == "7")).isSome = true :=
  (swipeList_spec (fun _ => none) [⟨[("title", "A")], "t", some "7"⟩] none "u" [("7", 0)] "7").2
    ⟨⟨[("title", "A")], "t", some "7"⟩, by decide, by decide⟩

theorem filterReadItems_eq_nil {groups : GroupedFeeds} {rm : ReadItemsMap}
    (h : ∀ e ∈ groups, ∀ f ∈ e.2, hasKey (getFeedItemId f) rm = true) :
    filterReadItems groups rm = [] := by
  induction groups with
  | nil => rfl
  | cons e rest ih =>
    unfold filterReadItems
    rw [List.filterMap_cons]
    have hf : (e.2.filter fun f => !(hasKey (getFeedItemId f) rm)) = [] := by
      rw [List.filter_eq_nil_iff]
      intro f hmem
      simp [h e (by simp) f hmem]
    rw [if_pos (by simp [hf])]
    exact ih fun e' he' => h e' (by simp [he'])

/-- C3 counterexample: the active group "a" holds exactly one unread item,
which is the current selection; another group "b" still has an unread item.
Marking the selected item read makes the handler clear the selection, but the
subsequent reconciliation pass does not set selectedItem to null — the group
"a" vanishes from the filtered grouping, so the reconciler activates the first
remaining group and selects its first item. -/
theorem reconcile_sole_unread_counterexample :
    filterReadItems
        [("a", [⟨[("title", "A")], "t", some "1"⟩]), ("b", [⟨[("title", "B")], "t", some "2"⟩])] []
      = [("a", [⟨[("title", "A")], "t", some "1"⟩]), ("b", [⟨[("title", "B")], "t", some "2"⟩])]
    ∧ handleMarkReadAndSelectNextDesktop
        [("a", [⟨[("title", "A")], "t", some "1"⟩]), ("b", [⟨[("title", "B")], "t", some "2"⟩])]
        [] 0 false (some "a") (some ⟨[("title", "A")], "t", some "1"⟩) "1"
      = ([("1", 0)], none)
    ∧ (reconcileSelection
        [("a", [⟨[("title", "A")], "t", some "1"⟩]), ("b", [⟨[("title", "B")], "t", some "2"⟩])]
        [("1", 0)] false ⟨none, some "a", none⟩).selectedFeedDesktop
      = some ⟨[("title", "B")], "t", some "2"⟩ := by
  refine ⟨by decide, by decide, by decide⟩

/-- C3 amended: marking the sole unread item of the active group read sets
selectedItem (and the active group) to null in the subsequent reconciliation
pass, provided no group retains an unread item after the mark (the
counterexample shows the original claim fails when another group still has
unread items: the reconciler then activates the lexicographically first
remaining group and selects its first item). -/
theorem reconcile_sole_unread_amended (groups : GroupedFeeds) (readMap : ReadItemsMap)
    (g : String) (x : FeedVO) (t : Nat) (sel0 : Option FeedVO)
    (_hsel : sel0 = some x)
    (_hactive : lookupKV g (filterReadItems groups readMap) = some [x])
    (hafter : ∀ e ∈ groups, ∀ f ∈ e.2,
        hasKey (getFeedItemId f) (markRead t (getFeedItemId x) readMap).1 = true) :
    (reconcileSelection groups (markRead t (getFeedItemId x) readMap).1 false
        ⟨none, some g,
          (handleMarkReadAndSelectNextDesktop groups readMap t false (some g) sel0
            (getFeedItemId x)).2⟩).selectedFeedDesktop = none
    ∧ (reconcileSelection groups (markRead t (getFeedItemId x) readMap).1 false
        ⟨none, some g,
          (handleMarkReadAndSelectNextDesktop groups readMap t false (some g) sel0
            (getFeedItemId x)).2⟩).activeGroupName = none := by
  have hnil : filterReadItems groups (markRead t (getFeedItemId x) readMap).1 = [] :=
    filterReadItems_eq_nil hafter
  unfold reconcileSelection
  rw [hnil]
  simp [sortedGroupEntries, List.insertionSort]

/-- Witness for the amended C3 in the single-group scenario. -/
theorem reconcile_sole_unread_amended_witness :
    (reconcileSelection [("a", [⟨[("title", "A")], "t", some "1"⟩])]
        (markRead 0 (getFeedItemId ⟨[("title", "A")], "t", some "1"⟩) []).1 false
        ⟨none, some "a",
          (handleMarkReadAndSelectNextDesktop [("a", [⟨[("title", "A")], "t", some "1"⟩])]
            [] 0 false (some "a") (some ⟨[("title", "A")], "t", some "1"⟩)
            (getFeedItemId ⟨[("title", "A")], "t", some "1"⟩)).2⟩).selectedFeedDesktop = none
    ∧ (reconcileSelection [("a", [⟨[("title", "A")], "t", some "1"⟩])]
        (markRead 0 (getFeedItemId ⟨[("title", "A")], "t", some "1"⟩) []).1 false
        ⟨none, some "a",
          (handleMarkReadAndSelectNextDesktop [("a", [⟨[("title", "A")], "t", some "1"⟩])]
            [] 0 false (some "a") (some ⟨[("title", "A")], "t", some "1"⟩)
            (getFeedItemId ⟨[("title", "A")], "t", some "1"⟩)).2⟩).activeGroupName = none :=
  reconcile_sole_unread_amended [("a", [⟨[("title", "A")], "t", some "1"⟩])] [] "a"
    ⟨[("title", "A")], "t", some "1"⟩ 0 (some ⟨[("title", "A")], "t", some "1"⟩)
    rfl (by decide) (by decide)

theorem adjDays_step (d : Int) : adjDays d ≤ adjDays (d + 1) := by
  unfold adjDays
  omega

theorem adjDays_mono {d e : Int} (h : d ≤ e) : adjDays d ≤ adjDays e := by
  refine Int.le_induction (P := fun n => adjDays d ≤ adjDays n) ?_ ?_ e h
  · exact le_refl _
  · intro n _ ih
    exact ih.trans (adjDays_step n)

set_option maxHeartbeats 4000000 in
theorem adjDays_yearStart_ge (y : Int) (h0 : 0 ≤ y) (h1 : y ≤ 399) :
    365 * y ≤ adjDays (yearStartDays y) := by
  unfold adjDays yearStartDays
  interval_cases y <;> omega

set_option maxHeartbeats 4000000 in
theorem adjDays_yearEnd_le (y : Int) (h0 : 0 ≤ y) (h1 : y ≤ 399) :
    adjDays (yearStartDays (y + 1) - 1) ≤ 365 * y + 364 := by
  unfold adjDays yearStartDays
  interval_cases y <;> omega

theorem yoe_bounds {doe : Int} (h0 : 0 ≤ doe) (h1 : doe ≤ 146096) :
    0 ≤ adjDays doe / 365 ∧ adjDays doe / 365 ≤ 399
    ∧ yearStartDays (adjDays doe / 365) ≤ doe
    ∧ doe ≤ yearStartDays (adjDays doe / 365) + 365 := by
  have hA0 : 0 ≤ adjDays doe := by
    unfold adjDays
    omega
  have hAmax : adjDays doe ≤ 145999 := by
    have hm := adjDays_mono (d := doe) (e := 146096) h1
    have hval : adjDays 146096 = 145999 := by
      unfold adjDays
      norm_num
    omega
  have hy0 : 0 ≤ adjDays doe / 365 := by omega
  have hy399 : adjDays doe / 365 ≤ 399 := by omega
  refine ⟨hy0, hy399, ?_, ?_⟩
  · by_contra hcon
    push_neg at hcon
    set y := adjDays doe / 365 with hy
    have hy1 : 1 ≤ y := by
      rcases lt_or_ge y 1 with hlt | hge
      · have hy0' : y = 0 := by omega
        rw [hy0'] at hcon
        have hzero : yearStartDays 0 = 0 := by
          unfold yearStartDays
          norm_num
        omega
      · exact hge
    have hle : doe ≤ yearStartDays ((y - 1) + 1) - 1 := by
      have he : (y - 1) + 1 = y := by ring
      rw [he]
      omega
    have hmono := adjDays_mono hle
    have hB2 := adjDays_yearEnd_le (y - 1) (by omega) (by omega)
    have he : (y - 1) + 1 = y := by ring
    rw [he] at hmono hB2
    have hlow : 365 * y ≤ adjDays doe := by omega
    omega
  · set y := adjDays doe / 365 with hy
    rcases eq_or_lt_of_le hy399 with h399 | h398
    · have hval : yearStartDays 399 = 145731 := by
        unfold yearStartDays
        norm_num
      rw [h399]
      omega
    · by_contra hcon
      push_neg at hcon
      have hstep : yearStartDays (y + 1) ≤ yearStartDays y + 366 := by
        unfold yearStartDays
        omega
      have hle : yearStartDays (y + 1) ≤ doe := by omega
      have hmono := adjDays_mono hle
      have hB1 := adjDays_yearStart_ge (y + 1) (by omega) (by omega)
      omega

set_option maxHeartbeats 1000000 in
theorem daysFromCivil_civilFromDays (z : Int) :
    daysFromCivil (civilFromDays z).1 (civilFromDays z).2.1 (civilFromDays z).2.2 = z := by
  simp only [civilFromDays]
  set z' := z + 719468 with hz'
  set era := z' / 146097 with hera
  set doe := z' - era * 146097 with hdoe
  have hdoe0 : 0 ≤ doe := by omega
  have hdoe1 : doe ≤ 146096 := by omega
  obtain ⟨hy0, hy399, hys, hye⟩ := yoe_bounds hdoe0 hdoe1
  set yoe := adjDays doe / 365 with hyoe
  set doy := doe - yearStartDays yoe with hdoy
  have hdoy0 : 0 ≤ doy := by omega
  have hdoy365 : doy ≤ 365 := by omega
  set mp := (5 * doy + 2) / 153 with hmp
  have hmp0 : 0 ≤ mp := by omega
  have hmp11 : mp ≤ 11 := by omega
  unfold yearStartDays at hdoy hys hye
  by_cases h10 : mp < 10
  · rw [if_pos h10]
    have hm : ¬ (mp + 3 ≤ 2) := by omega
    rw [if_neg hm]
    simp only [daysFromCivil]
    rw [if_neg hm]
    have hmp3 : (2 : Int) < mp + 3 := by omega
    rw [if_pos hmp3]
    have hn : mp + 3 - 3 = mp := by ring
    rw [hn]
    have hn1 : yoe + era * 400 + 0 - 0 = yoe + era * 400 := by ring
    rw [hn1]
    have hi : (yoe + era * 400) / 400 = era := by omega
    rw [hi]
    have hn2 : yoe + era * 400 - era * 400 = yoe := by ring
    rw [hn2]
    unfold yearStartDays
    omega
  · rw [if_neg h10]
    have hm : mp + -9 ≤ 2 := by omega
    rw [if_pos hm]
    simp only [daysFromCivil]
    rw [if_pos hm]
    have hmp3 : ¬ ((2 : Int) < mp + -9) := by omega
    rw [if_neg hmp3]
    have hn : mp + -9 + 9 = mp := by ring
    rw [hn]
    have hn1 : yoe + era * 400 + 1 - 1 = yoe + era * 400 := by ring
    rw [hn1]
    have hi : (yoe + era * 400) / 400 = era := by omega
    rw [hi]
    have hn2 : yoe + era * 400 - era * 400 = yoe := by ring
    rw [hn2]
    unfold yearStartDays
    omega

theorem civilFromDays_inj {z₁ z₂ : Int} (h : civilFromDays z₁ = civilFromDays z₂) :
    z₁ = z₂ := by
  have h1 := daysFromCivil_civilFromDays z₁
  have h2 := daysFromCivil_civilFromDays z₂
  rw [h] at h1
  exact h1.symm.trans h2

theorem localDayNumber_eq_iff (off nowMs t : Int) :
    localDayNumber off t = localDayNumber off nowMs
      ↔ (localMidnight off nowMs ≤ t ∧ t < localMidnight off nowMs + msPerDay) := by
  unfold localMidnight localDayNumber msPerDay
  omega

theorem isToday_iff_interval (off nowMs t : Int) :
    isToday off nowMs t = true
      ↔ (localMidnight off nowMs ≤ t ∧ t < localMidnight off nowMs + msPerDay) := by
  simp only [isToday, decide_eq_true_eq]
  rw [← localDayNumber_eq_iff]
  constructor
  · rintro ⟨hd, hm, hy⟩
    exact civilFromDays_inj (Prod.ext_iff.mpr ⟨hy, Prod.ext_iff.mpr ⟨hm, hd⟩⟩)
  · intro h
    rw [h]
    exact ⟨rfl, rfl, rfl⟩

/-- C4: `todayCount` equals the number of read records whose timestamp lies in
the half-open interval [localMidnight, localMidnight + 24h) around the
evaluation moment — i.e. records read on the current local calendar day
(under the fixed-offset timezone model, where the two descriptions agree). -/
theorem todayCount_interval (off nowMs : Int) (items : ReadItemsMap) :
    calculateTodayReadCount off nowMs items
      = items.countP (fun p =>
          decide (localMidnight off nowMs ≤ (p.2 : Int)
            ∧ (p.2 : Int) < localMidnight off nowMs + msPerDay)) := by
  unfold calculateTodayReadCount
  rw [List.countP_map]
  apply List.countP_congr
  intro p _
  simp only [Function.comp_apply]
  rw [isToday_iff_interval, decide_eq_true_eq]

end Zenfeed
